import Mathlib

/-!
Verification of the btcpool-go-modules sources against their specification.

Shallow embedding of two components:

* `chainSwitcher/main.go` — the chain-switch decision loop
  (`updateChain`, `updateCurrentChain`, the Kafka command publish and the
  MySQL audit insert).
* the user-chain state manager (`UserChainManager`:
  `RegularUserName`, `SetPUID`, `GetChain`, `WriteToZK`, `FetchUserIDList`).

Modelling conventions:

* `dispatch_hashrate` is `float64` in the source but is only ever used in
  order comparisons (`>`); it is modelled as `Int`.
* Go maps iterated with `range` are modelled as association `List`s so that
  the (unspecified) iteration order is explicit; Go lookup maps
  (`ChainNameMap`, the user map, `PUIDs`, `lastPUID`) are modelled as
  functions into `Option`.
* Wall-clock timestamps (`created_at` fields) and the raw HTTP body stored
  in the audit row are outside the embedding and are omitted from the
  corresponding records.
* `glog.Fatal` terminates the process; a code path that reaches it is
  modelled by returning `none` ("no further effect happens in this pass").
* Network I/O outcomes (the telemetry HTTP GET, the registry HTTP GET, the
  MySQL insert, the Zookeeper calls) are inputs to the model: each modelled
  operation takes the outcome of its external calls as an argument.
-/

namespace ChainSwitcher

/-- One iteration of the best-chain scan in `updateCurrentChain`
(main.go lines 207–215):
`if record.DispatchHashrate > largeHashrate { chainName, ok :=
configData.ChainNameMap[chain]; if ok { largeHashrate = ...; bestChain =
chainName } }`.  The accumulator is the pair `(largeHashrate, bestChain)`. -/
def switchStep (chainNameMap : String → Option String) (acc : Int × String)
    (p : String × Int) : Int × String :=
  if acc.1 < p.2 then
    match chainNameMap p.1 with
    | some chainName => (p.2, chainName)
    | none => acc
  else acc

/-- The `(largeHashrate, bestChain)` accumulator after the whole `range`
loop of `updateCurrentChain`, starting from the zero values
(`var largeHashrate float64; var bestChain string`). -/
def selectBest (coins : List (String × Int))
    (chainNameMap : String → Option String) : Int × String :=
  coins.foldl (switchStep chainNameMap) (0, "")

/-- The value of `currentChainName` after `updateCurrentChain`'s
`if bestChain != "" { currentChainName = bestChain }` (main.go 217–219),
given its previous value `old`. -/
def newCurrentChain (coins : List (String × Int))
    (chainNameMap : String → Option String) (old : String) : String :=
  if (selectBest coins chainNameMap).2 ≠ "" then (selectBest coins chainNameMap).2
  else old

/-- One row of the MySQL audit table
(`INSERT INTO ...(algorithm,prev_chain,curr_chain,api_result)`); the raw
`api_result` body and the server-side timestamp are omitted. -/
structure AuditRecord where
  algorithm : String
  prevChain : String
  currChain : String
deriving DecidableEq

/-- The outbound Kafka message `KafkaCommand` (main.go 63–69); the
`created_at` wall-clock field is omitted. -/
structure KafkaCommand where
  id : Nat
  type : String
  action : String
  chainName : String
deriving DecidableEq

/-- One call of `updateCurrentChain` (main.go 182–230).
`telemetry` is `none` when the HTTP GET, the body read, or the JSON decode
fails (early `return`, nothing changes); otherwise it is the decoded
`Coins` map in iteration order.  `auditOk` is the outcome of
`insertStmt.Exec`; on a detected change with a failing insert the source
calls `glog.Fatal`, i.e. the process dies: modelled as `none`.
Returns the new `currentChainName` and the audit rows appended. -/
def updateCurrentChain (chainNameMap : String → Option String)
    (algorithm old : String) (telemetry : Option (List (String × Int)))
    (auditOk : Bool) : Option (String × List AuditRecord) :=
  match telemetry with
  | none => some (old, [])
  | some coins =>
    let current := newCurrentChain coins chainNameMap old
    if old ≠ current then
      if auditOk then some (current, [⟨algorithm, old, current⟩])
      else none
    else some (current, [])

/-- One pass of the `updateChain` loop body (main.go 156–180): run
`updateCurrentChain`, then, whenever `currentChainName != ""`, increment
`commandID` and publish exactly one `KafkaCommand` carrying the current
chain.  Returns `none` when the pass died inside `updateCurrentChain`
(fatal audit failure), else the new current chain, the new `commandID`,
the list of commands published this pass and the audit rows appended. -/
def updateChainPass (chainNameMap : String → Option String)
    (algorithm old : String) (commandID : Nat)
    (telemetry : Option (List (String × Int))) (auditOk : Bool) :
    Option (String × Nat × List KafkaCommand × List AuditRecord) :=
  match updateCurrentChain chainNameMap algorithm old telemetry auditOk with
  | none => none
  | some (current, audits) =>
    if current ≠ "" then
      some (current, commandID + 1,
        [⟨commandID + 1, "sserver_cmd", "auto_switch_chain", current⟩], audits)
    else some (current, commandID, [], audits)

/-- The rename map of the spec's worked example: `{"B":"chainB"}`. -/
def chainNameMapB : String → Option String :=
  fun k => if k = "B" then some "chainB" else none

theorem switchStep_fst_le (nm : String → Option String) (acc : Int × String)
    (q : String × Int) : acc.1 ≤ (switchStep nm acc q).1 := by
  unfold switchStep
  by_cases hlt : acc.1 < q.2
  · rw [if_pos hlt]
    cases nm q.1 with
    | none => exact le_refl _
    | some c => exact le_of_lt hlt
  · rw [if_neg hlt]

theorem foldl_switchStep_fix (nm : String → Option String) (l : List (String × Int)) :
    ∀ acc : Int × String, (∀ p ∈ l, (nm p.1).isSome → p.2 ≤ acc.1) →
      l.foldl (switchStep nm) acc = acc := by
  induction l with
  | nil => intro acc _; rfl
  | cons q l ih =>
    intro acc h
    have hstep : switchStep nm acc q = acc := by
      unfold switchStep
      cases hm : nm q.1 with
      | none => split <;> rfl
      | some c =>
        have hle : q.2 ≤ acc.1 := h q (List.mem_cons_self q l) (by simp [hm])
        rw [if_neg (by omega)]
    rw [List.foldl_cons, hstep]
    exact ih acc (fun p hp hs => h p (List.mem_cons_of_mem q hp) hs)

theorem foldl_switchStep_origin (nm : String → Option String)
    (l : List (String × Int)) : ∀ acc : Int × String,
    l.foldl (switchStep nm) acc = acc ∨
    ∃ p, p ∈ l ∧ nm p.1 = some ((l.foldl (switchStep nm) acc).2) ∧
      (l.foldl (switchStep nm) acc).1 = p.2 ∧ acc.1 < p.2 := by
  induction l with
  | nil => intro acc; exact Or.inl rfl
  | cons q l ih =>
    intro acc
    rw [List.foldl_cons]
    rcases ih (switchStep nm acc q) with heq | ⟨p, hp, hm, h1, h2⟩
    · rw [heq]
      unfold switchStep
      by_cases hlt : acc.1 < q.2
      · rw [if_pos hlt]
        cases hmq : nm q.1 with
        | none => exact Or.inl rfl
        | some c =>
          refine Or.inr ⟨q, List.mem_cons_self q l, ?_, rfl, hlt⟩
          rw [hmq]
      · rw [if_neg hlt]
        exact Or.inl rfl
    · refine Or.inr ⟨p, List.mem_cons_of_mem q hp, hm, h1, ?_⟩
      exact lt_of_le_of_lt (switchStep_fst_le nm acc q) h2

theorem foldl_switchStep_select (nm : String → Option String)
    (l : List (String × Int)) : ∀ (acc : Int × String) (k : String) (v : Int)
    (c : String), (k, v) ∈ l → nm k = some c → acc.1 < v →
    (∀ p ∈ l, (nm p.1).isSome → (p.1 = k ∧ p.2 = v) ∨ p.2 < v) →
    l.foldl (switchStep nm) acc = (v, c) := by
  induction l with
  | nil => intro acc k v c hmem; cases hmem
  | cons q l ih =>
    intro acc k v c hmem hmap hacc hmax
    obtain ⟨qk, qv⟩ := q
    rw [List.foldl_cons]
    by_cases hq : qk = k ∧ qv = v
    · obtain ⟨rfl, rfl⟩ := hq
      have hstep : switchStep nm acc (qk, qv) = (qv, c) := by
        unfold switchStep
        rw [if_pos hacc]
        simp only [hmap]
      rw [hstep]
      refine foldl_switchStep_fix nm l (qv, c) (fun p hp hs => ?_)
      rcases hmax p (List.mem_cons_of_mem (qk, qv) hp) hs with ⟨_, he⟩ | hlt
      · exact le_of_eq he
      · exact le_of_lt hlt
    · have hmem2 : (k, v) ∈ l := by
        rcases List.mem_cons.mp hmem with heq | hm
        · cases heq
          exact absurd ⟨rfl, rfl⟩ hq
        · exact hm
      have hacc2 : (switchStep nm acc (qk, qv)).1 < v := by
        unfold switchStep
        by_cases hlt : acc.1 < (qk, qv).2
        · rw [if_pos hlt]
          cases hnm : nm (qk, qv).1 with
          | none => exact hacc
          | some c0 =>
            rcases hmax (qk, qv) (List.mem_cons_self (qk, qv) l) (by simp [hnm])
              with ⟨he1, he2⟩ | hlt2
            · exact absurd ⟨he1, he2⟩ hq
            · exact hlt2
        · rw [if_neg hlt]
          exact hacc
      exact ih (switchStep nm acc (qk, qv)) k v c hmem2 hmap hacc2
        (fun p hp hs => hmax p (List.mem_cons_of_mem (qk, qv) hp) hs)

theorem selectBest_of_nonpos (coins : List (String × Int))
    (nm : String → Option String)
    (h : ∀ p ∈ coins, (nm p.1).isSome → p.2 ≤ 0) :
    selectBest coins nm = (0, "") :=
  foldl_switchStep_fix nm coins (0, "") h

theorem newCurrentChain_of_nonpos (coins : List (String × Int))
    (nm : String → Option String) (old : String)
    (h : ∀ p ∈ coins, (nm p.1).isSome → p.2 ≤ 0) :
    newCurrentChain coins nm old = old := by
  unfold newCurrentChain
  rw [selectBest_of_nonpos coins nm h]
  simp

theorem newCurrentChain_ne_of_change (coins : List (String × Int))
    (nm : String → Option String) (old : String)
    (h : old ≠ newCurrentChain coins nm old) :
    newCurrentChain coins nm old ≠ "" := by
  unfold newCurrentChain at h ⊢
  by_cases hb : (selectBest coins nm).2 ≠ ""
  · rw [if_pos hb]
    exact hb
  · rw [if_neg hb] at h
    exact absurd rfl h

theorem newCurrentChain_example1 (old : String) :
    newCurrentChain [("A", 5), ("B", 9)] chainNameMapB old = "chainB" := by
  have e1 : selectBest [("A", 5), ("B", 9)] chainNameMapB = (9, "chainB") := by decide
  unfold newCurrentChain
  rw [e1]
  exact if_pos (by decide)

theorem newCurrentChain_example2 (old : String) :
    newCurrentChain [("B", 9), ("A", 5)] chainNameMapB old = "chainB" := by
  have e1 : selectBest [("B", 9), ("A", 5)] chainNameMapB = (9, "chainB") := by decide
  unfold newCurrentChain
  rw [e1]
  exact if_pos (by decide)

/-- C3: each pass selects, among the telemetry chains that have an entry in
the rename map, the renamed chain with the strictly largest (positive)
dispatch hashrate; a chain absent from the map is never selected; if no
chain qualifies, `currentChainName` is retained; and on the spec's worked
example (telemetry A:5, B:9, map {"B":"chainB"}) the selected chain is
`"chainB"` in either iteration order. -/
theorem c3_best_chain_selection :
    (∀ (coins : List (String × Int)) (nm : String → Option String)
       (old k c : String) (v : Int),
       (k, v) ∈ coins → nm k = some c → 0 < v →
       (∀ p ∈ coins, (nm p.1).isSome → (p.1 = k ∧ p.2 = v) ∨ p.2 < v) →
       selectBest coins nm = (v, c) ∧
         (c ≠ "" → newCurrentChain coins nm old = c))
  ∧ (∀ (coins : List (String × Int)) (nm : String → Option String),
       (selectBest coins nm).2 ≠ "" →
       ∃ k v, (k, v) ∈ coins ∧ nm k = some ((selectBest coins nm).2))
  ∧ (∀ (coins : List (String × Int)) (nm : String → Option String)
       (old : String),
       (∀ p ∈ coins, nm p.1 = none) → newCurrentChain coins nm old = old)
  ∧ (∀ old : String,
       newCurrentChain [("A", 5), ("B", 9)] chainNameMapB old = "chainB" ∧
       newCurrentChain [("B", 9), ("A", 5)] chainNameMapB old = "chainB") := by
  refine ⟨?_, ?_, ?_, ?_⟩
  · intro coins nm old k c v hmem hmap hv hmax
    have hsel : selectBest coins nm = (v, c) :=
      foldl_switchStep_select nm coins (0, "") k v c hmem hmap hv hmax
    refine ⟨hsel, fun hc => ?_⟩
    unfold newCurrentChain
    rw [hsel]
    exact if_pos hc
  · intro coins nm hne
    rcases foldl_switchStep_origin nm coins (0, "") with heq | ⟨p, hp, hm, _, _⟩
    · refine absurd ?_ hne
      show (coins.foldl (switchStep nm) (0, "")).2 = ""
      rw [heq]
    · refine ⟨p.1, p.2, ?_, hm⟩
      simpa using hp
  · intro coins nm old hall
    refine newCurrentChain_of_nonpos coins nm old (fun p hp hs => ?_)
    rw [hall p hp] at hs
    simp at hs
  · intro old
    exact ⟨newCurrentChain_example1 old, newCurrentChain_example2 old⟩

/-- C3 witness: the selection theorem applied to the spec's worked example
(telemetry `[("A",5),("B",9)]`, rename map `{"B":"chainB"}`, previous chain
`"chainA"`). -/
theorem c3_witness :
    selectBest [("A", 5), ("B", 9)] chainNameMapB = (9, "chainB") ∧
    newCurrentChain [("A", 5), ("B", 9)] chainNameMapB "chainA" = "chainB" := by
  have h := c3_best_chain_selection.1 [("A", 5), ("B", 9)] chainNameMapB
    "chainA" "B" "chainB" 9 (by decide) (by decide) (by decide) (by decide)
  exact ⟨h.1, h.2 (by decide)⟩

/-- C10: a chain with nonpositive dispatch hashrate is never selected
(the scan's accumulator starts at zero and the comparison is strict); if
every mapped chain reports a nonpositive hashrate, `currentChainName` is
retained; and while `currentChainName` is still empty no command is
published. -/
theorem c10_nonpositive_never_selected :
    (∀ (coins : List (String × Int)) (nm : String → Option String),
       (selectBest coins nm).2 ≠ "" →
       0 < (selectBest coins nm).1 ∧
         ∃ k, (k, (selectBest coins nm).1) ∈ coins ∧
           nm k = some ((selectBest coins nm).2))
  ∧ (∀ (coins : List (String × Int)) (nm : String → Option String)
       (old : String),
       (∀ p ∈ coins, (nm p.1).isSome → p.2 ≤ 0) →
       newCurrentChain coins nm old = old)
  ∧ (∀ (coins : List (String × Int)) (nm : String → Option String)
       (algorithm : String) (commandID : Nat) (auditOk : Bool),
       (∀ p ∈ coins, (nm p.1).isSome → p.2 ≤ 0) →
       updateChainPass nm algorithm "" commandID (some coins) auditOk =
         some ("", commandID, [], [])) := by
  refine ⟨?_, ?_, ?_⟩
  · intro coins nm hne
    rcases foldl_switchStep_origin nm coins (0, "") with heq | ⟨p, hp, hm, h1, h2⟩
    · refine absurd ?_ hne
      show (coins.foldl (switchStep nm) (0, "")).2 = ""
      rw [heq]
    · constructor
      · show 0 < (coins.foldl (switchStep nm) (0, "")).1
        rw [h1]
        exact h2
      · refine ⟨p.1, ?_, hm⟩
        show (p.1, (coins.foldl (switchStep nm) (0, "")).1) ∈ coins
        rw [h1]
        simpa using hp
  · intro coins nm old hall
    exact newCurrentChain_of_nonpos coins nm old hall
  · intro coins nm algorithm commandID auditOk hall
    have hcur := newCurrentChain_of_nonpos coins nm "" hall
    have h1 : updateCurrentChain nm algorithm "" (some coins) auditOk =
        some ("", []) := by
      simp only [updateCurrentChain, hcur]
      simp
    simp [updateChainPass, h1]

/-- C10 witness: a positive mapped chain is selected with positive
accumulator; on all-nonpositive telemetry the chain is retained, and with
an empty current chain no command is published. -/
theorem c10_witness :
    0 < (selectBest [("B", 9)] chainNameMapB).1 ∧
    newCurrentChain [("B", 0), ("A", -3)] chainNameMapB "chainA" = "chainA" ∧
    updateChainPass chainNameMapB "sha256d" "" 7 (some [("B", 0)]) true =
      some ("", 7, [], []) :=
  ⟨(c10_nonpositive_never_selected.1 [("B", 9)] chainNameMapB (by decide)).1,
   c10_nonpositive_never_selected.2.1 [("B", 0), ("A", -3)] chainNameMapB
     "chainA" (by decide),
   c10_nonpositive_never_selected.2.2 [("B", 0)] chainNameMapB "sha256d" 7
     true (by decide)⟩

/-- C1 counterexample: a pass in which the newly selected chain equals the
previous one (`"chainB"` both before and after) still publishes a command,
because `updateChain` publishes whenever `currentChainName != ""`,
independently of whether a change was detected. -/
theorem c1_counterexample :
    updateChainPass chainNameMapB "sha256d" "chainB" 0 (some [("B", 9)]) true =
      some ("chainB", 1,
        [⟨1, "sserver_cmd", "auto_switch_chain", "chainB"⟩], []) := by
  decide

/-- C1 amended: a switch command is published on every pass whose current
chain is non-empty after the update — regardless of whether a change was
detected — and exactly one command, carrying the current chain and the
freshly incremented command id; no command is published only while the
current chain is still the empty string. -/
theorem c1_amended_publish_iff_nonempty (nm : String → Option String)
    (algorithm old : String) (commandID : Nat)
    (telemetry : Option (List (String × Int))) (auditOk : Bool)
    (current : String) (commandID2 : Nat) (pub : List KafkaCommand)
    (audits : List AuditRecord)
    (h : updateChainPass nm algorithm old commandID telemetry auditOk =
      some (current, commandID2, pub, audits)) :
    (current ≠ "" →
      pub = [⟨commandID + 1, "sserver_cmd", "auto_switch_chain", current⟩] ∧
        commandID2 = commandID + 1) ∧
    (current = "" → pub = [] ∧ commandID2 = commandID) := by
  unfold updateChainPass at h
  cases hu : updateCurrentChain nm algorithm old telemetry auditOk with
  | none =>
    rw [hu] at h
    simp at h
  | some r =>
    obtain ⟨cur0, audits0⟩ := r
    rw [hu] at h
    dsimp only at h
    by_cases hc : cur0 ≠ ""
    · rw [if_pos hc] at h
      simp only [Option.some.injEq, Prod.mk.injEq] at h
      obtain ⟨h1, h2, h3, h4⟩ := h
      subst h1
      subst h2
      subst h3
      exact ⟨fun _ => ⟨rfl, rfl⟩, fun he => absurd he hc⟩
    · rw [if_neg hc] at h
      simp only [Option.some.injEq, Prod.mk.injEq] at h
      obtain ⟨h1, h2, h3, h4⟩ := h
      subst h1
      subst h2
      subst h3
      exact ⟨fun hne => absurd hne hc, fun _ => ⟨rfl, rfl⟩⟩

/-- C1 witness: the amended theorem applied to a pass that switches from
`"chainA"` to `"chainB"` with command id 5. -/
theorem c1_amended_witness :
    [KafkaCommand.mk 6 "sserver_cmd" "auto_switch_chain" "chainB"] =
      [KafkaCommand.mk (5 + 1) "sserver_cmd" "auto_switch_chain" "chainB"] ∧
    6 = 5 + 1 :=
  (c1_amended_publish_iff_nonempty chainNameMapB "sha256d" "chainA" 5
    (some [("B", 9)]) true "chainB" 6
    [KafkaCommand.mk 6 "sserver_cmd" "auto_switch_chain" "chainB"]
    [AuditRecord.mk "sha256d" "chainA" "chainB"] (by decide)).1 (by decide)

/-- C2 counterexample: on a pass that detects a change
(`"chainA"` → `"chainB"`) whose audit insert fails, `glog.Fatal`
terminates the process inside `updateCurrentChain`, so the pass ends with
no command published — the publish does **not** happen regardless of the
audit outcome. -/
theorem c2_counterexample :
    updateChainPass chainNameMapB "sha256d" "chainA" 0 (some [("B", 9)]) false =
      none := by
  decide

/-- C2 amended: when a chain change is detected, a failing audit append is
fatal — the process dies and that pass publishes nothing; only when the
audit append succeeds is exactly one command (and one audit row)
produced. -/
theorem c2_amended_fatal_gates_publish (nm : String → Option String)
    (algorithm old : String) (commandID : Nat) (coins : List (String × Int))
    (hchange : old ≠ newCurrentChain coins nm old) :
    updateChainPass nm algorithm old commandID (some coins) false = none ∧
    updateChainPass nm algorithm old commandID (some coins) true =
      some (newCurrentChain coins nm old, commandID + 1,
        [⟨commandID + 1, "sserver_cmd", "auto_switch_chain",
          newCurrentChain coins nm old⟩],
        [⟨algorithm, old, newCurrentChain coins nm old⟩]) := by
  have hne := newCurrentChain_ne_of_change coins nm old hchange
  constructor
  · have h1 : updateCurrentChain nm algorithm old (some coins) false = none := by
      simp only [updateCurrentChain]
      rw [if_pos hchange]
      simp
    simp [updateChainPass, h1]
  · have h2 : updateCurrentChain nm algorithm old (some coins) true =
        some (newCurrentChain coins nm old,
          [⟨algorithm, old, newCurrentChain coins nm old⟩]) := by
      simp only [updateCurrentChain]
      rw [if_pos hchange]
      simp
    simp only [updateChainPass, h2]
    rw [if_pos hne]

/-- C2 witness: the amended theorem applied to the change
`"chainA"` → `"chainB"`. -/
theorem c2_amended_witness :
    updateChainPass chainNameMapB "sha256d" "chainA" 0 (some [("B", 9)]) false =
      none ∧
    updateChainPass chainNameMapB "sha256d" "chainA" 0 (some [("B", 9)]) true =
      some ("chainB", 0 + 1,
        [⟨0 + 1, "sserver_cmd", "auto_switch_chain", "chainB"⟩],
        [⟨"sha256d", "chainA", "chainB"⟩]) :=
  c2_amended_fatal_gates_publish chainNameMapB "sha256d" "chainA" 0
    [("B", 9)] (by decide)

end ChainSwitcher

namespace UserChain

/-- The character list strictly before the last `'_'` of the list: the
embedding of `userName[0:strings.LastIndex(userName, "_")]`
(part_001 line 172).  On a list with no underscore it returns the list
itself; `regularUserName` only reaches it when an underscore is present. -/
def beforeLastUnderscore : List Char → List Char
  | [] => []
  | c :: cs =>
    if '_' ∈ cs then c :: beforeLastUnderscore cs
    else if c = '_' then []
    else c :: beforeLastUnderscore cs

/-- `RegularUserName` (part_001 lines 169–178) on the character list of the
user name: if the name contains `'_'`, keep only the part before the last
underscore (`strings.Contains` / `strings.LastIndex`); if the deployment is
case-insensitive (`StratumServerCaseInsensitive`), lower-case the result
(`strings.ToLower`, modelled per character by `Char.toLower` — the names in
play are ASCII). -/
def regularUserName (caseInsensitive : Bool) (userName : List Char) : List Char :=
  let stripped := if '_' ∈ userName then beforeLastUnderscore userName else userName
  if caseInsensitive then stripped.map Char.toLower else stripped

/-- `RegularUserName` on `String`s (Go works on `string` values). -/
def regularUserNameStr (caseInsensitive : Bool) (userName : String) : String :=
  ⟨regularUserName caseInsensitive userName.data⟩

theorem char_toNat_ofNat_valid {n : Nat} (hv : n.isValidChar) :
    (Char.ofNat n).toNat = n := by
  unfold Char.ofNat
  rw [dif_pos hv]
  rfl

theorem toLower_fixes_nonupper (c : Char) (h : ¬(c.toNat ≥ 65 ∧ c.toNat ≤ 90)) :
    Char.toLower c = c := by
  simp only [Char.toLower]
  rw [if_neg h]

theorem toLower_toNat_of_upper (c : Char) (h : c.toNat ≥ 65 ∧ c.toNat ≤ 90) :
    (Char.toLower c).toNat = c.toNat + 32 := by
  have h1 : Char.toLower c = Char.ofNat (c.toNat + 32) := by
    simp only [Char.toLower]
    rw [if_pos h]
  rw [h1]
  exact char_toNat_ofNat_valid (Or.inl (by omega))

theorem toLower_idem (c : Char) : (Char.toLower c).toLower = Char.toLower c := by
  by_cases h : c.toNat ≥ 65 ∧ c.toNat ≤ 90
  · refine toLower_fixes_nonupper _ ?_
    rw [toLower_toNat_of_upper c h]
    omega
  · rw [toLower_fixes_nonupper c h]
    exact toLower_fixes_nonupper c h

theorem toLower_ne_underscore (c : Char) (h : c ≠ '_') :
    Char.toLower c ≠ '_' := by
  by_cases hu : c.toNat ≥ 65 ∧ c.toNat ≤ 90
  · intro heq
    have ht := toLower_toNat_of_upper c hu
    rw [heq] at ht
    have h95 : ('_' : Char).toNat = 95 := by decide
    omega
  · rw [toLower_fixes_nonupper c hu]
    exact h

theorem not_mem_map_toLower (l : List Char) (h : '_' ∉ l) :
    '_' ∉ l.map Char.toLower := by
  intro hmem
  obtain ⟨c, hc, heq⟩ := List.mem_map.mp hmem
  by_cases hcu : c = '_'
  · exact h (hcu ▸ hc)
  · exact toLower_ne_underscore c hcu heq

theorem not_mem_beforeLastUnderscore (l : List Char) (h : l.count '_' ≤ 1) :
    '_' ∉ beforeLastUnderscore l := by
  induction l with
  | nil => simp [beforeLastUnderscore]
  | cons c cs ih =>
    by_cases hcs : '_' ∈ cs
    · have h1 : 1 ≤ cs.count '_' := List.one_le_count_iff.mpr hcs
      have hc : c ≠ '_' := by
        intro heq
        rw [heq, List.count_cons_self] at h
        omega
      have hcount : cs.count '_' ≤ 1 := by
        rw [List.count_cons_of_ne (fun he => hc he.symm)] at h
        exact h
      simp only [beforeLastUnderscore, if_pos hcs]
      intro hmem
      rcases List.mem_cons.mp hmem with heq | hm
      · exact hc heq.symm
      · exact ih hcount hm
    · by_cases hc : c = '_'
      · simp [beforeLastUnderscore, hcs, hc]
      · simp only [beforeLastUnderscore, if_neg hcs, if_neg hc]
        intro hmem
        rcases List.mem_cons.mp hmem with heq | hm
        · exact hc heq.symm
        · have hcount : cs.count '_' ≤ 1 :=
            le_trans (List.count_le_count_cons '_' c cs) h
          exact ih hcount hm

theorem regularUserName_idem_of_no_underscore (ci : Bool) (l : List Char)
    (h : '_' ∉ regularUserName ci l) :
    regularUserName ci (regularUserName ci l) = regularUserName ci l := by
  have hr : (if '_' ∈ regularUserName ci l then
        beforeLastUnderscore (regularUserName ci l)
      else regularUserName ci l) = regularUserName ci l := if_neg h
  cases ci with
  | false => exact hr
  | true =>
    show (if '_' ∈ regularUserName true l then
        beforeLastUnderscore (regularUserName true l)
      else regularUserName true l).map Char.toLower = regularUserName true l
    rw [hr]
    show ((if '_' ∈ l then beforeLastUnderscore l else l).map Char.toLower).map
        Char.toLower = (if '_' ∈ l then beforeLastUnderscore l else l).map Char.toLower
    rw [List.map_map]
    exact List.map_congr_left (fun a _ => toLower_idem a)

theorem no_underscore_regularUserName (ci : Bool) (l : List Char)
    (h : l.count '_' ≤ 1) : '_' ∉ regularUserName ci l := by
  have hs : '_' ∉ (if '_' ∈ l then beforeLastUnderscore l else l) := by
    by_cases hm : '_' ∈ l
    · rw [if_pos hm]
      exact not_mem_beforeLastUnderscore l h
    · rw [if_neg hm]
      exact hm
  cases ci with
  | false => exact hs
  | true =>
    show '_' ∉ (if '_' ∈ l then beforeLastUnderscore l else l).map Char.toLower
    exact not_mem_map_toLower _ hs

/-- C5 counterexample: normalization is **not** idempotent.  The raw name
`"a_b_c"` normalizes (case-sensitive deployment) to `"a_b"`, which still
contains an underscore, so a second normalization gives `"a"` — the source
strips at the *last* underscore only. -/
theorem c5_counterexample :
    regularUserNameStr false (regularUserNameStr false "a_b_c") ≠
      regularUserNameStr false "a_b_c" := by
  decide

/-- C5 amended: `RegularUserName` is idempotent, for either setting of the
case-insensitivity flag, on every user name containing at most one
underscore (the counterexample `"a_b_c"` shows two or more underscores
break idempotence). -/
theorem c5_amended_idempotent (caseInsensitive : Bool) (userName : String)
    (h : userName.data.count '_' ≤ 1) :
    regularUserNameStr caseInsensitive (regularUserNameStr caseInsensitive userName) =
      regularUserNameStr caseInsensitive userName := by
  unfold regularUserNameStr
  show (⟨regularUserName caseInsensitive
      (regularUserName caseInsensitive userName.data)⟩ : String) =
    ⟨regularUserName caseInsensitive userName.data⟩
  rw [regularUserName_idem_of_no_underscore caseInsensitive userName.data
    (no_underscore_regularUserName caseInsensitive userName.data h)]

/-- C5 witness: the amended idempotence theorem applied to the spec's
example name `"Alice_btc"` in a case-insensitive deployment. -/
theorem c5_amended_witness :
    regularUserNameStr true (regularUserNameStr true "Alice_btc") =
      regularUserNameStr true "Alice_btc" :=
  c5_amended_idempotent true "Alice_btc" (by decide)

end UserChain

namespace UserChain

/-- `UserChainInfo` (part_001 lines 18–23).  The `userName` key is held by
the enclosing map; `PUIDs` (Go `map[string]int32`) is modelled as a lookup
function (puids are only stored and compared, never arithmetically
combined, so `Int` stands in for `int32`). -/
structure UserChainInfo where
  chainName : String
  subPoolName : String
  puids : String → Option Int

/-- `NewUserChainInfo` (part_001 lines 26–31): zero-valued record with an
empty `PUIDs` map. -/
def newUserChainInfo : UserChainInfo :=
  { chainName := "", subPoolName := "", puids := fun _ => none }

/-- The manager's `userChainMap` (`map[string]*UserChainInfo`). -/
abbrev Users := String → Option UserChainInfo

/-- `SetPUID` (part_001 lines 181–201): create the record if absent
(`NewUserChainInfo`), always store `puid` under `chain` in `PUIDs`, and set
`ChainName` to `chain` only when it was empty
(`if len(info.ChainName) <= 0`). -/
def setPUID (users : Users) (userName chain : String) (puid : Int) : Users :=
  let info0 := (users userName).getD newUserChainInfo
  let info1 : UserChainInfo :=
    { info0 with puids := fun c => if c = chain then some puid else info0.puids c }
  let info2 : UserChainInfo :=
    if info1.chainName.length ≤ 0 then { info1 with chainName := chain } else info1
  fun n => if n = userName then some info2 else users n

/-- `GetChain` (part_001 lines 157–166): pure lookup, `""` for unknown
names, no record creation. -/
def getChain (users : Users) (userName : String) : String :=
  match users userName with
  | none => ""
  | some info => info.chainName

/-- Observer (not a source function): the stored puid of `userName` under
`chain`, `none` when the record or the entry is absent. -/
def getPUID (users : Users) (userName chain : String) : Option Int :=
  match users userName with
  | none => none
  | some info => info.puids chain

theorem string_eq_empty_of_length_le_zero (s : String) (h : s.length ≤ 0) :
    s = "" := by
  cases s with
  | mk data =>
    cases data with
    | nil => rfl
    | cons c cs => simp [String.length] at h

/-- C6: `SetPUID` always records the given id under the given chain,
creates the record if absent, sets `ChainName` only when it was previously
empty, and never clears ids stored under other chains; in particular, for a
fresh user, `SetPUID(u,"btc",42)` then `SetPUID(u,"eth",7)` leaves
`GetChain u = "btc"` with both puids retained. -/
theorem c6_setPUID_semantics (users : Users) (u chain : String) (puid : Int) :
    getPUID (setPUID users u chain puid) u chain = some puid
  ∧ (setPUID users u chain puid) u ≠ none
  ∧ (getChain users u ≠ "" →
      getChain (setPUID users u chain puid) u = getChain users u)
  ∧ (getChain users u = "" →
      getChain (setPUID users u chain puid) u = chain)
  ∧ (∀ c, c ≠ chain →
      getPUID (setPUID users u chain puid) u c = getPUID users u c)
  ∧ (users u = none →
      getChain (setPUID (setPUID users u "btc" 42) u "eth" 7) u = "btc"
      ∧ getPUID (setPUID (setPUID users u "btc" 42) u "eth" 7) u "btc" = some 42
      ∧ getPUID (setPUID (setPUID users u "btc" 42) u "eth" 7) u "eth" = some 7) := by
  refine ⟨?_, ?_, ?_, ?_, ?_, ?_⟩
  · simp [getPUID, setPUID]
    split <;> simp
  · simp [setPUID]
  · intro h
    cases hu : users u with
    | none => simp [getChain, hu] at h
    | some info =>
      have hne : info.chainName ≠ "" := by simpa [getChain, hu] using h
      simp [getChain, setPUID, hu]
      split
      · rename_i hl
        exact absurd (string_eq_empty_of_length_le_zero _ (by omega)) hne
      · rfl
  · intro h
    cases hu : users u with
    | none => simp [getChain, setPUID, hu, newUserChainInfo]
    | some info =>
      have he : info.chainName = "" := by simpa [getChain, hu] using h
      simp [getChain, setPUID, hu, he]
  · intro c hc
    simp [getPUID, setPUID, hc]
    cases hu : users u with
    | none => split <;> simp [hc, newUserChainInfo]
    | some info => split <;> simp [hc]
  · intro h
    refine ⟨?_, ?_, ?_⟩ <;> simp [getChain, getPUID, setPUID, h, newUserChainInfo] <;>
      decide

/-- C6 witness: the semantics theorem applied at the fresh user `"bob"` of
the empty map (and, for the home-chain preservation conjunct, at the map
produced by the first assignment). -/
theorem c6_witness :
    getChain (setPUID (setPUID (fun _ => none) "bob" "btc" 42) "bob" "eth" 7)
        "bob" =
      getChain (setPUID (fun _ => none) "bob" "btc" 42) "bob"
  ∧ getPUID (setPUID (fun _ => none) "bob" "btc" 42) "bob" "eth" =
      getPUID (fun _ => none : Users) "bob" "eth"
  ∧ getChain (setPUID (setPUID (fun _ => none) "bob" "btc" 42) "bob" "eth" 7)
        "bob" = "btc"
  ∧ getPUID (setPUID (setPUID (fun _ => none) "bob" "btc" 42) "bob" "eth" 7)
        "bob" "btc" = some 42
  ∧ getPUID (setPUID (setPUID (fun _ => none) "bob" "btc" 42) "bob" "eth" 7)
        "bob" "eth" = some 7 :=
  ⟨(c6_setPUID_semantics (setPUID (fun _ => none) "bob" "btc" 42) "bob" "eth"
      7).2.2.1 (by decide),
   (c6_setPUID_semantics (fun _ => none) "bob" "btc" 42).2.2.2.2.1 "eth"
     (by decide),
   (c6_setPUID_semantics (fun _ => none) "bob" "btc" 42).2.2.2.2.2 rfl⟩

end UserChain

namespace UserChain

/-- Manager state relevant to `FetchUserIDList`: the user map and the
per-chain `lastPUID` cursor (`map[string]int32`; `none` = key absent, as
tested by the `ok` of the Go map read). -/
structure MgrState where
  users : Users
  lastPUID : String → Option Int

/-- The decodable shapes of a user-id-list response body.
`keyed` is a body whose `data` field is a JSON object of name → id
(decodes as `UserIDMapResponse`); `seq` is a body whose `data` field is a
JSON array (decodes as `UserIDMapEmptyResponse`, whose `[]interface{}`
accepts any array); `malformed` fails both decodes.  A JSON value cannot
be both an object and an array, so the two decodes accept disjoint
bodies. -/
inductive IDListBody
  | keyed (errNo : Int) (errMsg : String) (entries : List (String × Int))
  | seq (errNo : Int) (errMsg : String)
  | malformed
deriving DecidableEq

/-- `json.Unmarshal(body, userIDMapResponse)` (part_001 line 260):
succeeds exactly on the keyed shape. -/
def decodeKeyed : IDListBody → Option (Int × String × List (String × Int))
  | .keyed errNo errMsg entries => some (errNo, errMsg, entries)
  | _ => none

/-- `json.Unmarshal(body, userIDMapEmptyResponse)` (part_001 line 265):
succeeds exactly on the sequence shape. -/
def decodeSeq : IDListBody → Option (Int × String)
  | .seq errNo errMsg => some (errNo, errMsg)
  | _ => none

/-- The error outcomes `FetchUserIDList` can report once a body has been
read (HTTP failures happen before a body exists and are not modelled):
`apiError` = `"API Returned a Error"`, `parseError` =
`"Parse Result Failed"`. -/
inductive FetchError
  | apiError
  | parseError
deriving DecidableEq

/-- The cursor bookkeeping at the top of `FetchUserIDList` (part_001
240–244): if `lastPUID[chain]` exists it is appended to the url as
`last_id`, otherwise `lastPUID[chain] = 0` is stored. -/
def cursorInit (s : MgrState) (chain : String) : MgrState :=
  if (s.lastPUID chain).isSome then s
  else { s with lastPUID := fun c => if c = chain then some 0 else s.lastPUID c }

/-- One iteration of the `range userIDMapResponse.Data` loop (part_001
282–294): normalize the name (`RegularUserName`), `SetPUID`, and advance
`lastPUID[chain]` when the id exceeds it.  The optional `WriteToZK`
write-through touches no manager state and its failure is logged and
skipped, so it does not appear in the state evolution. -/
def fetchStep (caseInsensitive : Bool) (chain : String) (s : MgrState)
    (p : String × Int) : MgrState :=
  let puname := regularUserNameStr caseInsensitive p.1
  let s1 : MgrState := { s with users := setPUID s.users puname chain p.2 }
  if p.2 > (s1.lastPUID chain).getD 0 then
    { s1 with lastPUID := fun c => if c = chain then some p.2 else s1.lastPUID c }
  else s1

/-- `FetchUserIDList` (part_001 238–298) from the point the response body
is available, as a function of that body: try the keyed decode; on decode
failure fall back to the sequence decode (success there logs
`"No New User"` and returns `nil` — note the sequence shape's `err_no` is
never examined); if both fail report a parse error.  On a keyed decode,
`err_no != 0` is an application error; otherwise every entry is applied
via `fetchStep`.  Error paths return the state unchanged apart from the
cursor initialization. -/
def fetchUserIDList (caseInsensitive : Bool) (s : MgrState) (chain : String)
    (body : IDListBody) : MgrState × Option FetchError :=
  let s0 := cursorInit s chain
  match decodeKeyed body with
  | some (errNo, _, entries) =>
    if errNo ≠ 0 then (s0, some .apiError)
    else (entries.foldl (fetchStep caseInsensitive chain) s0, none)
  | none =>
    match decodeSeq body with
    | some _ => (s0, none)
    | none => (s0, some .parseError)

/-- The all-empty manager state. -/
def emptyMgr : MgrState := { users := fun _ => none, lastPUID := fun _ => none }

theorem cursorInit_users (s : MgrState) (chain : String) :
    (cursorInit s chain).users = s.users := by
  unfold cursorInit
  split <;> rfl

theorem cursorInit_getD (s : MgrState) (chain : String) :
    ((cursorInit s chain).lastPUID chain).getD 0 = (s.lastPUID chain).getD 0 := by
  unfold cursorInit
  split
  · rfl
  · rename_i h
    cases hc : s.lastPUID chain with
    | none => simp
    | some v => exact absurd (by simp [hc]) h

theorem setPUID_apply_ne (users : Users) (n chain : String) (puid : Int)
    (u : String) (h : u ≠ n) : (setPUID users n chain puid) u = users u := by
  simp [setPUID, h]

theorem getPUID_setPUID_self (users : Users) (n chain : String) (puid : Int) :
    getPUID (setPUID users n chain puid) n chain = some puid := by
  simp [getPUID, setPUID]
  split <;> simp

theorem getPUID_setPUID_ne_user (users : Users) (n chain : String)
    (puid : Int) (u c : String) (h : u ≠ n) :
    getPUID (setPUID users n chain puid) u c = getPUID users u c := by
  unfold getPUID
  rw [setPUID_apply_ne users n chain puid u h]

theorem fetchStep_users (ci : Bool) (chain : String) (s : MgrState)
    (p : String × Int) :
    (fetchStep ci chain s p).users =
      setPUID s.users (regularUserNameStr ci p.1) chain p.2 := by
  simp only [fetchStep]
  split <;> rfl

/-- `b` holds, per chain, at least the puids of `a`: every id stored in `a`
is stored in `b` at the same or a higher value. -/
def puidGE (a b : Users) (chain : String) : Prop :=
  ∀ u v, getPUID a u chain = some v → ∃ w, getPUID b u chain = some w ∧ v ≤ w

theorem foldl_fetchStep_puidGE (ci : Bool) (chain : String) (c0 : Int)
    (sb : Users) (hb : ∀ u v, getPUID sb u chain = some v → v ≤ c0) :
    ∀ (entries : List (String × Int)) (s : MgrState),
    (∀ p ∈ entries, c0 < p.2) →
    puidGE sb s.users chain →
    puidGE sb (entries.foldl (fetchStep ci chain) s).users chain := by
  intro entries
  induction entries with
  | nil => intro s _ hge; exact hge
  | cons p rest ih =>
    intro s hresp hge
    rw [List.foldl_cons]
    refine ih (fetchStep ci chain s p)
      (fun q hq => hresp q (List.mem_cons_of_mem p hq)) ?_
    intro u v hv
    rw [fetchStep_users]
    by_cases hu : u = regularUserNameStr ci p.1
    · subst hu
      exact ⟨p.2, getPUID_setPUID_self _ _ _ _,
        le_of_lt (lt_of_le_of_lt (hb _ v hv) (hresp p (List.mem_cons_self p rest)))⟩
    · obtain ⟨w, hw, hvw⟩ := hge u v hv
      refine ⟨w, ?_, hvw⟩
      rw [getPUID_setPUID_ne_user _ _ _ _ _ _ hu]
      exact hw

end UserChain

namespace UserChain

/-- C7 counterexample: a body of the empty-sequence shape whose `err_no` is
`5` (non-zero) makes `FetchUserIDList` return success (`nil`), not an
application-level error — the fallback branch (part_001 262–273) returns
before the `ErrNo` check, so `err_no != 0` is only detected on the
keyed-mapping shape.  This refutes "returns an application-level error ...
regardless of which of the two response shapes the body decodes as". -/
theorem c7_counterexample :
    (fetchUserIDList false emptyMgr "btc" (.seq 5 "boom")).2 = none := by
  rfl

/-- C7 amended: `err_no != 0` yields an application-level error exactly
when the body decodes as the keyed-mapping shape (regardless of HTTP
status, which the source never consults); a body of the empty-sequence
shape is accepted with its `err_no` ignored; on both shapes no upsert is
performed when no entry is processed (the user map is unchanged on the
error path and on the sequence path). -/
theorem c7_amended_errno_keyed_only (ci : Bool) (s : MgrState)
    (chain : String) (errNo : Int) (errMsg : String)
    (entries : List (String × Int)) (h : errNo ≠ 0) :
    (fetchUserIDList ci s chain (.keyed errNo errMsg entries)).2 =
      some .apiError
    ∧ (fetchUserIDList ci s chain (.keyed errNo errMsg entries)).1.users =
        s.users
    ∧ ∀ (e2 : Int) (m2 : String),
        (fetchUserIDList ci s chain (.seq e2 m2)).2 = none
        ∧ (fetchUserIDList ci s chain (.seq e2 m2)).1.users = s.users := by
  refine ⟨?_, ?_, ?_⟩
  · simp only [fetchUserIDList, decodeKeyed]
    rw [if_pos h]
  · simp only [fetchUserIDList, decodeKeyed]
    rw [if_pos h]
    exact cursorInit_users s chain
  · intro e2 m2
    exact ⟨rfl, cursorInit_users s chain⟩

/-- C7 witness: the amended theorem applied to a keyed body with
`err_no = 5` and a sequence body with `err_no = 7`. -/
theorem c7_amended_witness :
    (fetchUserIDList false emptyMgr "btc" (.keyed 5 "boom" [("u", 9)])).2 =
      some .apiError
    ∧ (fetchUserIDList false emptyMgr "btc" (.keyed 5 "boom" [("u", 9)])).1.users =
        emptyMgr.users
    ∧ (fetchUserIDList false emptyMgr "btc" (.seq 7 "x")).2 = none
    ∧ (fetchUserIDList false emptyMgr "btc" (.seq 7 "x")).1.users =
        emptyMgr.users :=
  have h := c7_amended_errno_keyed_only false emptyMgr "btc" 5 "boom"
    [("u", 9)] (by decide)
  ⟨h.1, h.2.1, (h.2.2 7 "x").1, (h.2.2 7 "x").2⟩

/-- C8: the keyed-mapping decode is attempted first and handles every
keyed body (an `err_no = 0` keyed body is processed by the entry loop, not
the fallback); a body of the empty-sequence shape — in particular
`{err_no:0, err_msg:"", data:[]}` — is accepted without error with zero
upserts; and a parse failure is reported exactly for the bodies that match
neither shape. -/
theorem c8_dual_shape_handling :
    (∀ (ci : Bool) (s : MgrState) (chain errMsg : String),
       (fetchUserIDList ci s chain (.seq 0 errMsg)).2 = none
       ∧ (fetchUserIDList ci s chain (.seq 0 errMsg)).1.users = s.users)
  ∧ (∀ (ci : Bool) (s : MgrState) (chain errMsg : String)
       (entries : List (String × Int)),
       (fetchUserIDList ci s chain (.keyed 0 errMsg entries)).2 = none
       ∧ (fetchUserIDList ci s chain (.keyed 0 errMsg entries)).1 =
           entries.foldl (fetchStep ci chain) (cursorInit s chain))
  ∧ (∀ (ci : Bool) (s : MgrState) (chain : String) (body : IDListBody),
       (fetchUserIDList ci s chain body).2 = some .parseError ↔
         decodeKeyed body = none ∧ decodeSeq body = none) := by
  refine ⟨?_, ?_, ?_⟩
  · intro ci s chain errMsg
    exact ⟨rfl, cursorInit_users s chain⟩
  · intro ci s chain errMsg entries
    constructor
    · simp [fetchUserIDList, decodeKeyed]
    · simp [fetchUserIDList, decodeKeyed]
  · intro ci s chain body
    cases body with
    | keyed errNo errMsg entries =>
      constructor
      · intro h
        by_cases he : errNo = 0
        · simp [fetchUserIDList, decodeKeyed, he] at h
        · simp [fetchUserIDList, decodeKeyed, he] at h
      · rintro ⟨h1, h2⟩
        simp [decodeKeyed] at h1
    | seq errNo errMsg =>
      constructor
      · intro h
        simp [fetchUserIDList, decodeKeyed, decodeSeq] at h
      · rintro ⟨h1, h2⟩
        simp [decodeSeq] at h2
    | malformed =>
      exact ⟨fun _ => ⟨rfl, rfl⟩, fun _ => rfl⟩

/-- C8 witness: the dual-shape theorem applied to the empty-sequence body
`{err_no:0, err_msg:"", data:[]}` and to a malformed body. -/
theorem c8_witness :
    (fetchUserIDList false emptyMgr "btc" (.seq 0 "")).2 = none
    ∧ (fetchUserIDList false emptyMgr "btc" (.seq 0 "")).1.users =
        emptyMgr.users
    ∧ ((fetchUserIDList false emptyMgr "btc" .malformed).2 =
          some .parseError ↔
        decodeKeyed .malformed = none ∧ decodeSeq .malformed = none) :=
  ⟨(c8_dual_shape_handling.1 false emptyMgr "btc" "").1,
   (c8_dual_shape_handling.1 false emptyMgr "btc" "").2,
   c8_dual_shape_handling.2.2 false emptyMgr "btc" .malformed⟩

/-- C4 counterexample: `SetPUID` is last-write-wins, so a later
reconciliation pass whose response carries a smaller id for the same user
replaces the stored id with the strictly smaller one: after processing
`{"u":42}` and then `{"u":7}` for chain `"btc"`, the stored puid is 7,
not 42 — nothing in the code makes higher ids win. -/
theorem c4_counterexample :
    getPUID (fetchUserIDList false emptyMgr "btc"
        (.keyed 0 "" [("u", 42)])).1.users "u" "btc" = some 42
    ∧ getPUID (fetchUserIDList false
          (fetchUserIDList false emptyMgr "btc" (.keyed 0 "" [("u", 42)])).1
          "btc" (.keyed 0 "" [("u", 7)])).1.users "u" "btc" = some 7 := by
  decide

/-- C4 amended: stored puids are non-decreasing across a reconciliation
pass *provided* the registry honors the `last_id` cursor — every id in the
response exceeds `lastPUID[chain]` — and the stored ids are bounded by the
cursor (the invariant the cursor bookkeeping maintains).  Without that
assumption on the external registry the code gives no monotonicity
(see the counterexample). -/
theorem c4_amended_monotonic_with_cursor (ci : Bool) (s : MgrState)
    (chain errMsg : String) (entries : List (String × Int))
    (hresp : ∀ p ∈ entries, (s.lastPUID chain).getD 0 < p.2)
    (hinv : ∀ u v, getPUID s.users u chain = some v →
      v ≤ (s.lastPUID chain).getD 0) :
    puidGE s.users
      (fetchUserIDList ci s chain (.keyed 0 errMsg entries)).1.users chain := by
  have hfetch : (fetchUserIDList ci s chain (.keyed 0 errMsg entries)).1 =
      entries.foldl (fetchStep ci chain) (cursorInit s chain) := by
    simp [fetchUserIDList, decodeKeyed]
  rw [hfetch]
  refine foldl_fetchStep_puidGE ci chain ((s.lastPUID chain).getD 0) s.users
    hinv entries (cursorInit s chain) hresp ?_
  rw [cursorInit_users]
  intro u v hv
  exact ⟨v, hv, le_refl v⟩

/-- A one-user state for the C4 witness: `"u"` holds puid 42 under
`"btc"` and the cursor stands at 42. -/
def wUsers : Users := fun n =>
  if n = "u" then
    some { chainName := "btc", subPoolName := "",
           puids := fun c => if c = "btc" then some 42 else none }
  else none

/-- Manager state for the C4 witness. -/
def wState : MgrState :=
  { users := wUsers, lastPUID := fun c => if c = "btc" then some 42 else none }

/-- C4 witness: the amended monotonicity theorem applied to the one-user
state and a response `{"u":50}` respecting the cursor. -/
theorem c4_amended_witness :
    ∃ w, getPUID (fetchUserIDList false wState "btc"
        (.keyed 0 "" [("u", 50)])).1.users "u" "btc" = some w ∧ (42 : Int) ≤ w :=
  c4_amended_monotonic_with_cursor false wState "btc" "" [("u", 50)]
    (by decide)
    (by
      intro u v hv
      by_cases hu : u = "u"
      · subst hu
        simp [getPUID, wState, wUsers] at hv
        simp [wState]
        omega
      · simp [getPUID, wState, wUsers, hu] at hv)
    "u" 42 (by decide)

/-- One Zookeeper RPC issued by `WriteToZK`. -/
inductive ZKOp
  | zkExists (path : String)
  | zkSet (path : String) (version : Int)
  | zkCreate (path : String)
deriving DecidableEq

/-- Outcome of `zookeeper.Exists(zkPath)` for a path (external input):
RPC failure, node present with a version, or node absent. -/
inductive ZKNodeView
  | zkError
  | node (version : Int)
  | absent
deriving DecidableEq

/-- `WriteToZK` (part_001 110–138): under the read lock, look the user up
in `userChainMap`; an unknown user returns
`"User <name> does not exists"` before any store call.  Otherwise marshal
the record (`json.Marshal` cannot fail for this type; payload bytes are
outside the embedding), call `Exists`, then `Set` with the observed
version or `Create`.  The outcomes of `Set`/`Create` themselves are beyond
what the claims need and are modelled as success.  The source holds only
the shared lock and assigns no manager field, so the embedding returns no
state: manager state is unchanged by construction, mirroring the code.
Returns the error outcome and the list of store RPCs issued. -/
def writeToZK (s : MgrState) (watchDir : String) (zk : String → ZKNodeView)
    (userName : String) : Except String Unit × List ZKOp :=
  match s.users userName with
  | none => (.error ("User " ++ userName ++ " does not exists"), [])
  | some _ =>
    let zkPath := watchDir ++ userName
    match zk zkPath with
    | .zkError => (.error "zk exists failed", [.zkExists zkPath])
    | .node version => (.ok (), [.zkExists zkPath, .zkSet zkPath version])
    | .absent => (.ok (), [.zkExists zkPath, .zkCreate zkPath])

/-- C9: `WriteToZK` on a user that is not in the in-memory map — never
read from the store nor set by any local assignment — returns the
not-found error and issues no store RPC at all (no `Exists`, `Set` or
`Create`); the manager state is untouched (the function only reads the
map). -/
theorem c9_writeToZK_unknown_user (s : MgrState) (watchDir : String)
    (zk : String → ZKNodeView) (userName : String)
    (h : s.users userName = none) :
    writeToZK s watchDir zk userName =
      (.error ("User " ++ userName ++ " does not exists"), []) := by
  unfold writeToZK
  rw [h]

/-- C9 witness: the unknown-user theorem applied to the empty manager and
the user `"ghost"`. -/
theorem c9_witness :
    writeToZK emptyMgr "/switcher/" (fun _ => .absent) "ghost" =
      (.error ("User " ++ "ghost" ++ " does not exists"), []) :=
  c9_writeToZK_unknown_user emptyMgr "/switcher/" (fun _ => .absent) "ghost" rfl

end UserChain
